import Mathlib

/-!
Verification of the CSS-scraping and route-generation core of the
`webfonts` repository (files `font.go`, `route.go`, `stylesheet.css.tpl`,
with the older parallel implementation in `webfonts.go` as secondary
evidence).  The Go code is shallowly embedded: pure functions become Lean
functions, Go machine words become `Nat` with explicit `% 2^32`, and Go
panics become a distinguished result constructor.
-/

/-- UTF-8 encoding of a single character, as a list of byte values.
Models Go's `[]byte(s)` conversion for one rune. -/
def utf8Char (c : Char) : List Nat :=
  let n := c.toNat
  if n < 0x80 then [n]
  else if n < 0x800 then [0xc0 + n / 64, 0x80 + n % 64]
  else if n < 0x10000 then
    [0xe0 + n / 4096, 0x80 + (n / 64) % 64, 0x80 + n % 64]
  else
    [0xf0 + n / 0x40000, 0x80 + (n / 4096) % 64, 0x80 + (n / 64) % 64, 0x80 + n % 64]

/-- UTF-8 bytes of a string; models Go's `[]byte(s)`. -/
def utf8Bytes (s : String) : List Nat :=
  s.data.flatMap utf8Char

/-- Left-rotation of a 32-bit word represented as a `Nat < 2^32`. -/
def rotl32 (x s : Nat) : Nat :=
  Nat.lor ((x <<< s) % 2 ^ 32) (x >>> (32 - s))

/-- The 64 MD5 sine-derived constants (RFC 1321 `T` table). -/
def md5K : List Nat :=
  [0xd76aa478, 0xe8c7b756, 0x242070db, 0xc1bdceee,
   0xf57c0faf, 0x4787c62a, 0xa8304613, 0xfd469501,
   0x698098d8, 0x8b44f7af, 0xffff5bb1, 0x895cd7be,
   0x6b901122, 0xfd987193, 0xa679438e, 0x49b40821,
   0xf61e2562, 0xc040b340, 0x265e5a51, 0xe9b6c7aa,
   0xd62f105d, 0x02441453, 0xd8a1e681, 0xe7d3fbc8,
   0x21e1cde6, 0xc33707d6, 0xf4d50d87, 0x455a14ed,
   0xa9e3e905, 0xfcefa3f8, 0x676f02d9, 0x8d2a4c8a,
   0xfffa3942, 0x8771f681, 0x6d9d6122, 0xfde5380c,
   0xa4beea44, 0x4bdecfa9, 0xf6bb4b60, 0xbebfbc70,
   0x289b7ec6, 0xeaa127fa, 0xd4ef3085, 0x04881d05,
   0xd9d4d039, 0xe6db99e5, 0x1fa27cf8, 0xc4ac5665,
   0xf4292244, 0x432aff97, 0xab9423a7, 0xfc93a039,
   0x655b59c3, 0x8f0ccc92, 0xffeff47d, 0x85845dd1,
   0x6fa87e4f, 0xfe2ce6e0, 0xa3014314, 0x4e0811a1,
   0xf7537e82, 0xbd3af235, 0x2ad7d2bb, 0xeb86d391]

/-- The 64 MD5 per-round left-rotation amounts. -/
def md5S : List Nat :=
  [7, 12, 17, 22, 7, 12, 17, 22, 7, 12, 17, 22, 7, 12, 17, 22,
   5, 9, 14, 20, 5, 9, 14, 20, 5, 9, 14, 20, 5, 9, 14, 20,
   4, 11, 16, 23, 4, 11, 16, 23, 4, 11, 16, 23, 4, 11, 16, 23,
   6, 10, 15, 21, 6, 10, 15, 21, 6, 10, 15, 21, 6, 10, 15, 21]

/-- MD5 round mixing function, selected by round index. -/
def md5F (i b c d : Nat) : Nat :=
  if i < 16 then Nat.lor (Nat.land b c) (Nat.land (Nat.xor b 0xffffffff) d)
  else if i < 32 then Nat.lor (Nat.land d b) (Nat.land (Nat.xor d 0xffffffff) c)
  else if i < 48 then Nat.xor b (Nat.xor c d)
  else Nat.xor c (Nat.lor b (Nat.xor d 0xffffffff))

/-- MD5 message-word index for round `i`. -/
def md5G (i : Nat) : Nat :=
  if i < 16 then i
  else if i < 32 then (5 * i + 1) % 16
  else if i < 48 then (3 * i + 5) % 16
  else (7 * i) % 16

/-- Split a 64-byte block into 16 little-endian 32-bit words. -/
def md5Words : List Nat → List Nat
  | a :: b :: c :: d :: rest =>
      (a + (b <<< 8) + (c <<< 16) + (d <<< 24)) :: md5Words rest
  | _ => []

/-- One MD5 round applied to the state quadruple. -/
def md5Round (m : List Nat) (st : Nat × Nat × Nat × Nat) (i : Nat) :
    Nat × Nat × Nat × Nat :=
  let (a, b, c, d) := st
  let f := md5F i b c d
  let tmp := (a + f + md5K.getD i 0 + m.getD (md5G i) 0) % 2 ^ 32
  (d, (b + rotl32 tmp (md5S.getD i 0)) % 2 ^ 32, b, c)

/-- Process one 64-byte block, updating the MD5 state. -/
def md5Block (st : Nat × Nat × Nat × Nat) (block : List Nat) :
    Nat × Nat × Nat × Nat :=
  let m := md5Words block
  let (a, b, c, d) := (List.range 64).foldl (md5Round m) st
  ((st.1 + a) % 2 ^ 32, (st.2.1 + b) % 2 ^ 32,
   (st.2.2.1 + c) % 2 ^ 32, (st.2.2.2 + d) % 2 ^ 32)

/-- MD5 padding: append 0x80, zero-pad to 56 mod 64, append the
little-endian 64-bit bit length. -/
def md5Pad (msg : List Nat) : List Nat :=
  let n := msg.length
  let zeros := (64 + 56 - (n + 1) % 64) % 64
  let bitLen := (8 * n) % 2 ^ 64
  msg ++ [0x80] ++ List.replicate zeros 0 ++
    [bitLen % 256, (bitLen >>> 8) % 256, (bitLen >>> 16) % 256,
     (bitLen >>> 24) % 256, (bitLen >>> 32) % 256, (bitLen >>> 40) % 256,
     (bitLen >>> 48) % 256, (bitLen >>> 56) % 256]

/-- Fuel-driven worker for `chunks64`; the fuel bounds the number of
chunks and makes the recursion structural. -/
def chunks64Go : Nat → List Nat → List (List Nat)
  | 0, _ => []
  | _ + 1, [] => []
  | fuel + 1, c :: cs => (c :: cs).take 64 :: chunks64Go fuel ((c :: cs).drop 64)

/-- Split a byte list into 64-byte chunks. -/
def chunks64 (l : List Nat) : List (List Nat) :=
  chunks64Go l.length l

/-- Little-endian byte decomposition of a 32-bit word. -/
def le4 (x : Nat) : List Nat :=
  [x % 256, (x >>> 8) % 256, (x >>> 16) % 256, (x >>> 24) % 256]

/-- The 16 MD5 digest bytes of a byte sequence; models Go's `md5.Sum`. -/
def md5Bytes (msg : List Nat) : List Nat :=
  let st := (chunks64 (md5Pad msg)).foldl md5Block
    (0x67452301, 0xefcdab89, 0x98badcfe, 0x10325476)
  le4 st.1 ++ le4 st.2.1 ++ le4 st.2.2.1 ++ le4 st.2.2.2

/-- Lowercase hexadecimal digit for a value below 16. -/
def hexDigit (n : Nat) : Char :=
  if n < 10 then Char.ofNat (48 + n) else Char.ofNat (87 + n)

/-- Two lowercase hex characters of a byte value. -/
def byteHex (b : Nat) : List Char :=
  [hexDigit (b / 16), hexDigit (b % 16)]

/-- Lowercase hex MD5 digest of a string; models Go's
`fmt.Sprintf("%x", md5.Sum([]byte(s)))`. -/
def md5hex (s : String) : String :=
  String.mk ((md5Bytes (utf8Bytes s)).flatMap byteHex)

/-! ## Stylesheet parser embedding (`font.go`) -/

/-- One declared property of a parsed CSS rule: the property name and the
text of its value (`style.Property` and `style.Value.Text()` of the CSS
library used by `FontsFromStylesheetReader`). -/
structure GoStyle where
  Property : String
  Value : String
deriving DecidableEq, Repr

/-- One parsed CSS rule: whether it is an `@font-face` rule
(`rule.Type == css.FONT_FACE_RULE`) and its declared properties. -/
structure GoRule where
  isFontFace : Bool
  styles : List GoStyle
deriving DecidableEq, Repr

/-- The `Font` record of `font.go`: one parsed `@font-face` rule. -/
structure Font where
  Subset : String
  Family : String
  Style : String
  Weight : String
  Display : String
  Stretch : String
  Src : String
  Format : String
  Range : List String
deriving DecidableEq, Repr

/-- The zero value of `Font` (all fields empty), as in `var font Font`. -/
def emptyFont : Font := ⟨"", "", "", "", "", "", "", "", []⟩

/-- Go errors returned by `parseSrcAndFormat`. -/
inductive GoError
  | invalidSrc (src : String)
  | invalidSrcURL (url : String)
deriving DecidableEq, Repr

/-- Run-time panics reachable in `FontsFromStylesheetReader`: the
out-of-bounds string slice `v[1 : len(v)-1]`, and the explicit `panic`
call in the `default` branch of the property switch. -/
inductive PanicKind
  | sliceBounds
  | unknownFontFaceProperty (prop : String)
deriving DecidableEq, Repr

instance {e a : Type} [DecidableEq e] [DecidableEq a] : DecidableEq (Except e a) :=
  fun x y =>
    match x, y with
    | Except.ok v, Except.ok w =>
      if h : v = w then isTrue (by rw [h]) else isFalse (by intro hc; cases hc; exact h rfl)
    | Except.error v, Except.error w =>
      if h : v = w then isTrue (by rw [h]) else isFalse (by intro hc; cases hc; exact h rfl)
    | Except.ok _, Except.error _ => isFalse (by intro hc; cases hc)
    | Except.error _, Except.ok _ => isFalse (by intro hc; cases hc)

/-- Outcome of running a fallible piece of the Go parser: a normal value,
a returned error, or a panic. -/
inductive PResult (α : Type)
  | ok (val : α)
  | err (e : GoError)
  | panicked (k : PanicKind)
deriving DecidableEq, Repr

/-- Whitespace class of Go's regexp `\s`, namely tab, newline, form
feed, carriage return and space. -/
def isGoSpace (c : Char) : Bool :=
  c == ' ' || c == '\t' || c == '\n' || c == '\x0c' || c == '\r'

/-- Whether a position is at a line end, i.e. matches the multiline `$`
anchor: end of input or immediately before a newline. -/
def atLineEnd : List Char → Bool
  | [] => true
  | c :: _ => c == '\n'

/-- Attempt the optional  regex group of `srcRE`, i.e. whitespace
followed by a quoted format token, followed by the `$` anchor.  Returns
the captured token and the remaining input. -/
def tryFormat (l : List Char) : Option (String × List Char) :=
  let w := l.span isGoSpace
  if w.1.isEmpty then none else
  match w.2 with
  | 'f' :: 'o' :: 'r' :: 'm' :: 'a' :: 't' :: '(' :: '\'' :: rest =>
    let p := rest.span (fun c => c != '\'')
    if p.1.isEmpty then none else
    match p.2 with
    | '\'' :: ')' :: rest2 =>
      if atLineEnd rest2 then some (String.mk p.1, rest2) else none
    | _ => none
  | _ => none

/-- Attempt a match of `srcRE` at the current position, which the caller
guarantees to be a line start.  The pattern is
`url(` + a nonempty run of characters other than a closing parenthesis +
`)`, optionally followed by whitespace and a quoted `format` token, then
the `$` anchor.  The optional group is attempted first; on its failure
the bare form is accepted provided the anchor holds right after the
closing parenthesis, mirroring regex backtracking. -/
def tryMatch (l : List Char) : Option (String × String × List Char) :=
  match l with
  | 'u' :: 'r' :: 'l' :: '(' :: rest =>
    let p := rest.span (fun c => c != ')')
    if p.1.isEmpty then none else
    match p.2 with
    | ')' :: rest2 =>
      match tryFormat rest2 with
      | some (g2, rest3) => some (String.mk p.1, g2, rest3)
      | none =>
        if atLineEnd rest2 then some (String.mk p.1, "", rest2) else none
    | _ => none
  | _ => none

/-- Scanner for `srcRE.FindAllStringSubmatch`: walk the input, attempt a
match at every line start, and continue after each match.  The Boolean
tracks whether the current position is a line start; the fuel (initially
the input length) makes the recursion structural. -/
def scanGo : Nat → Bool → List Char → List (String × String)
  | 0, _, _ => []
  | _ + 1, _, [] => []
  | fuel + 1, atStart, c :: cs =>
    if atStart then
      match tryMatch (c :: cs) with
      | some (g1, g2, rest) => (g1, g2) :: scanGo fuel false rest
      | none => scanGo fuel (c == '\n') cs
    else scanGo fuel (c == '\n') cs

/-- All matches of `srcRE` in a string, as (url capture, format capture)
pairs; an absent optional group yields an empty format capture, as in
Go's submatch slices. -/
def srcFindAll (s : String) : List (String × String) :=
  scanGo s.data.length true s.data

/-! URL-path extraction, modelling the part of Go's `net/url.Parse` the
parser depends on: fragment and query stripping, scheme detection,
opaque (rootless) URLs, authority skipping, and percent-unescaping of
the path.  Host validation is not modelled (no claim exercises invalid
hosts); escaped bytes are modelled as single code points, which agrees
with Go on ASCII. -/

/-- The URL components used by `parseSrcAndFormat`: only the path. -/
structure GoURL where
  path : String
deriving DecidableEq, Repr

/-- ASCII control bytes, which make Go's `url.Parse` fail. -/
def isCtl (c : Char) : Bool :=
  c.toNat < 0x20 || c.toNat == 0x7f

/-- Scheme detection of `net/url`'s `getScheme`: `none` is a parse
error (colon with empty scheme), `some ([], orig)` means no scheme, and
`some (scheme, rest)` splits off a valid scheme. -/
def schemeAux (orig : List Char) : List Char → List Char → Option (List Char × List Char)
  | _, [] => some ([], orig)
  | seen, c :: rest =>
    if c.isAlpha then schemeAux orig (seen ++ [c]) rest
    else if c.isDigit || c == '+' || c == '-' || c == '.' then
      if seen.isEmpty then some ([], orig) else schemeAux orig (seen ++ [c]) rest
    else if c == ':' then
      if seen.isEmpty then none else some (seen, rest)
    else some ([], orig)

/-- ASCII hexadecimal digit test, as Go's `ishex`. -/
def isHexDig (c : Char) : Bool :=
  c.isDigit || ('a' ≤ c && c ≤ 'f') || ('A' ≤ c && c ≤ 'F')

/-- Value of an ASCII hexadecimal digit. -/
def hexVal (c : Char) : Nat :=
  if c.isDigit then c.toNat - 48
  else if 'a' ≤ c then c.toNat - 87
  else c.toNat - 55

/-- Percent-unescaping of a URL path, as Go's `unescape`: `%` must be
followed by two hexadecimal digits, otherwise the URL parse fails. -/
def unescapePath : List Char → Option (List Char)
  | [] => some []
  | '%' :: a :: b :: rest =>
    if isHexDig a && isHexDig b then
      (unescapePath rest).map (fun t => Char.ofNat (hexVal a * 16 + hexVal b) :: t)
    else none
  | '%' :: _ => none
  | c :: rest => (unescapePath rest).map (fun t => c :: t)

/-- Path extraction of Go's `url.Parse`: `none` models a parse error,
otherwise the `Path` field of the resulting URL is returned.  Opaque
(scheme-prefixed rootless) URLs have an empty path. -/
def urlParse (raw : String) : Option GoURL :=
  let l := raw.data
  if l.any isCtl then none else
  let noFrag := (l.span (fun c => c != '#')).1
  match schemeAux noFrag [] noFrag with
  | none => none
  | some (scheme, rest0) =>
    let rest := (rest0.span (fun c => c != '?')).1
    if !scheme.isEmpty && !(rest.take 1 == ['/']) then some ⟨""⟩
    else if scheme.isEmpty && !(rest.take 1 == ['/']) &&
        ((rest.span (fun c => c != '/')).1.any (fun c => c == ':')) then none
    else
      let pathChars :=
        if rest.take 2 == ['/', '/'] &&
            (!scheme.isEmpty || !(rest.take 3 == ['/', '/', '/'])) then
          ((rest.drop 2).span (fun c => c != '/')).2
        else rest
      (unescapePath pathChars).map (fun p => ⟨String.mk p⟩)

/-- Go's `path.Base`: empty string gives `"."`, trailing slashes are
stripped, the last slash-separated element is returned, and an
all-slash path gives `"/"`. -/
def pathBase (p : String) : String :=
  if p == "" then "." else
  let l := (p.data.reverse.dropWhile (fun c => c == '/')).reverse
  let base := (l.reverse.takeWhile (fun c => c != '/')).reverse
  if base.isEmpty then "/" else String.mk base

/-- Go's `path.Ext`: the suffix starting at the final dot of the last
slash-separated element, or empty if there is none. -/
def pathExt (p : String) : String :=
  let r := p.data.reverse
  let pre := r.takeWhile (fun c => c != '/' && c != '.')
  match r.drop pre.length with
  | '.' :: _ => String.mk ('.' :: pre.reverse)
  | _ => ""

/-- Go's `strings.TrimPrefix(s, ".")`. -/
def trimDot (s : String) : String :=
  if s.startsWith "." then s.drop 1 else s

/-- ASCII lowercasing of one character, as Go's `strings.ToLower` acts
on ASCII input (the only case arising for file extensions here). -/
def lowerChar (c : Char) : Char :=
  if 'A' ≤ c && c ≤ 'Z' then Char.ofNat (c.toNat + 32) else c

/-- ASCII lowercasing of a string; models Go's `strings.ToLower`. -/
def goToLower (s : String) : String :=
  String.mk (s.data.map lowerChar)

/-- The `parseSrcAndFormat` function of `font.go`: require exactly one
`srcRE` match, parse the captured URL, and derive the format from the
lowercased file extension of the URL path, falling back to the captured
format token. -/
def parseSrcAndFormat (src : String) : Except GoError (String × String) :=
  match srcFindAll src with
  | [(u, f)] =>
    match urlParse u with
    | none => Except.error (GoError.invalidSrcURL u)
    | some parts =>
      let fileExt := goToLower (trimDot (pathExt (pathBase parts.path)))
      let fileExt := if fileExt == "" then f else fileExt
      Except.ok (u, fileExt)
  | _ => Except.error (GoError.invalidSrc src)

/-- One arm of the property switch in `FontsFromStylesheetReader`.  The
`font-family` value is unquoted by removing its first and last character
unconditionally (`v[1 : len(v)-1]`, a byte slice that panics when the
value is shorter than two bytes); unknown properties hit the explicit
`panic` in the `default` branch.  The character-level middle slice
agrees with Go's byte slice on ASCII values. -/
def applyStyle (f : Font) (st : GoStyle) : PResult Font :=
  if st.Property == "font-family" then
    if (utf8Bytes st.Value).length < 2 then PResult.panicked PanicKind.sliceBounds
    else PResult.ok { f with Family := String.mk ((st.Value.data.drop 1).dropLast) }
  else if st.Property == "font-style" then PResult.ok { f with Style := st.Value }
  else if st.Property == "font-weight" then PResult.ok { f with Weight := st.Value }
  else if st.Property == "font-display" then PResult.ok { f with Display := st.Value }
  else if st.Property == "font-stretch" then PResult.ok { f with Stretch := st.Value }
  else if st.Property == "src" then
    match parseSrcAndFormat st.Value with
    | Except.ok (src, fmt) => PResult.ok { f with Src := src, Format := fmt }
    | Except.error e => PResult.err e
  else if st.Property == "unicode-range" then
    PResult.ok { f with Range := (st.Value.splitOn ",").map String.trim }
  else PResult.panicked (PanicKind.unknownFontFaceProperty st.Property)

/-- Fold of `applyStyle` over a rule's properties, aborting on the
first error or panic. -/
def applyStyles (f : Font) : List GoStyle → PResult Font
  | [] => PResult.ok f
  | st :: rest =>
    match applyStyle f st with
    | PResult.ok f2 => applyStyles f2 rest
    | PResult.err e => PResult.err e
    | PResult.panicked k => PResult.panicked k

/-- The rule loop of `FontsFromStylesheetReader`: `i` is the index in
the full rule list (font-face and other rules alike); non-font-face
rules are skipped but still advance the index.  A rule whose overall
index is below the number of subset markers receives that marker's
token as its subset. -/
def fontsGo (subsets : List String) : Nat → List GoRule → PResult (List Font)
  | _, [] => PResult.ok []
  | i, r :: rs =>
    if r.isFontFace then
      let base := { emptyFont with
        Subset := if i < subsets.length then subsets.getD i "" else "" }
      match applyStyles base r.styles with
      | PResult.ok font =>
        match fontsGo subsets (i + 1) rs with
        | PResult.ok fs => PResult.ok (font :: fs)
        | PResult.err e => PResult.err e
        | PResult.panicked k => PResult.panicked k
      | PResult.err e => PResult.err e
      | PResult.panicked k => PResult.panicked k
    else fontsGo subsets (i + 1) rs

/-- The body of `FontsFromStylesheetReader` after CSS parsing: the
subset tokens captured by `subsetRE` in document order, and the parsed
rule list, are combined into the font list. -/
def fontsFromRules (subsets : List String) (rules : List GoRule) : PResult (List Font) :=
  fontsGo subsets 0 rules

/-! ## Route builder embedding (`route.go` and `stylesheet.css.tpl`) -/

/-- The `Route` record of `route.go`: a generated path and the original
source URL. -/
structure Route where
  Path : String
  URL : String
deriving DecidableEq, Repr

/-- The route identifier hash: first 7 hex characters of the MD5 digest
of the `src` URL string, as in
`fmt.Sprintf("%x", md5.Sum([]byte(font.Src)))[:7]`. -/
def routeHash (src : String) : String :=
  (md5hex src).take 7

/-- Accumulator of the font loop in `process`: the format-to-path map
(an association list keyed by format), the route list, and the
`display`/`stretch` defaults. -/
structure GroupAcc where
  paths : List (String × String)
  routes : List Route
  display : String
  stretch : String
deriving DecidableEq, Repr

/-- One iteration of the font loop in `process`: a font whose format is
already in the path map is skipped entirely; otherwise its route is
recorded, the prefixed path is stored under its format, and it may
supply the `display`/`stretch` defaults. -/
def processStep (pre : String) (acc : GroupAcc) (font : Font) : GroupAcc :=
  if (acc.paths.lookup font.Format).isSome then acc
  else
    let path := routeHash font.Src ++ "." ++ font.Format
    { paths := acc.paths ++ [(font.Format, pre ++ path)]
      routes := acc.routes ++ [⟨path, font.Src⟩]
      display := if font.Display != "" && acc.display == "" then font.Display else acc.display
      stretch := if font.Stretch != "" && acc.stretch == "" then font.Stretch else acc.stretch }

/-- The font loop of `process` over one (family, style, weight) group. -/
def processGroup (pre : String) (group : List Font) : GroupAcc :=
  group.foldl (processStep pre) ⟨[], [], "", ""⟩

/-- One step of the loop in the template's `src` function: append a
`url(...) format(...)` entry when the format is present in the map. -/
def srcEntry (m : List (String × String)) (acc : List String) (s : String) : List String :=
  match m.lookup s with
  | some path => acc ++ ["url('" ++ path ++ "') format('" ++ s ++ "')"]
  | none => acc

/-- The `src` template function of `route.go`: an optional leading
legacy `eot` src with an `?#iefix` fallback, then a comma-separated
list starting with `local('')` followed by the present formats in the
fixed order woff2, woff, ttf, svg. -/
def srcFunc (indent : String) (m : List (String × String)) : String :=
  let pre :=
    match m.lookup "eot" with
    | some path =>
      "url('" ++ path ++ "');\n" ++ indent ++ "src: url('" ++ path ++
        "?#iefix') format('embedded-opentype'), "
    | none => ""
  let paths := ["woff2", "woff", "ttf", "svg"].foldl (srcEntry m) ["local('')"]
  pre ++ String.intercalate ", " paths

/-- Rendering of `stylesheet.css.tpl` for one (family, style, weight)
block, with the template's whitespace trimming applied literally: the
`font-display` and `font-stretch` lines appear only when the
corresponding value is non-empty. -/
def renderBlock (family style weight display stretch : String)
    (paths : List (String × String)) : String :=
  "@font-face \x7b\n  font-family: '" ++ family ++ "';\n  font-style: " ++ style ++
    ";\n  font-weight: " ++ weight ++ ";" ++
    (if display != "" then "\n  font-display: " ++ display ++ ";" else "") ++
    (if stretch != "" then "\n  font-stretch: " ++ stretch ++ ";" else "") ++
    "\n  src: " ++ srcFunc "  " paths ++ ";\n\x7d\n\n"

/-- The ordered record list of one (family, style, weight) group.  The
Go code appends each font to `families[family][style][weight]` in input
order, which is exactly the input list filtered on those keys. -/
def groupFonts (fonts : List Font) (fam sty wgt : String) : List Font :=
  fonts.filter (fun f => f.Family == fam && f.Style == sty && f.Weight == wgt)

/-- `process` for one (family, style, weight) triple: its routes and
its rendered stylesheet block. -/
def processFSW (pre fam sty wgt : String) (fonts : List Font) : List Route × String :=
  let acc := processGroup pre (groupFonts fonts fam sty wgt)
  (acc.routes, renderBlock fam sty wgt acc.display acc.stretch acc.paths)

/-- Lexicographic comparison of character lists by code point.  Go's
`sort.Strings` compares strings byte-wise; on UTF-8 data byte-wise
lexicographic order coincides with code-point lexicographic order. -/
def charsLe : List Char → List Char → Bool
  | [], _ => true
  | _ :: _, [] => false
  | x :: xs, y :: ys =>
    if x < y then true
    else if y < x then false
    else charsLe xs ys

/-- Go's ascending string order, as a Boolean comparison. -/
def goLe (a b : String) : Bool :=
  charsLe a.data b.data

/-- Go's ascending string order, as a relation. -/
def strLe (a b : String) : Prop :=
  goLe a b = true

instance : DecidableRel strLe :=
  fun a b => inferInstanceAs (Decidable (goLe a b = true))

/-- Go's `sort.Strings`: on string lists every comparison sort computes
the unique ascending reordering. -/
def stringsSort (l : List String) : List String :=
  List.insertionSort strLe l

/-- The distinct family names of the input, i.e. the key set of the
`families` map built by `BuildRoutes`. -/
def familyKeyList (fonts : List Font) : List String :=
  (fonts.map (fun f => f.Family)).dedup

/-- The sorted family keys iterated by `BuildRoutes`. -/
def familyKeys (fonts : List Font) : List String :=
  stringsSort (familyKeyList fonts)

/-- The sorted style keys of one family. -/
def styleKeys (fonts : List Font) (fam : String) : List String :=
  stringsSort (((fonts.filter (fun f => f.Family == fam)).map (fun f => f.Style)).dedup)

/-- The sorted weight keys of one (family, style) pair. -/
def weightKeys (fonts : List Font) (fam sty : String) : List String :=
  stringsSort (((fonts.filter (fun f => f.Family == fam && f.Style == sty)).map
    (fun f => f.Weight)).dedup)

/-- The (style, weight) pairs of one family in the order `BuildRoutes`
processes them: styles ascending, weights ascending within a style. -/
def blockKeys (fonts : List Font) (fam : String) : List (String × String) :=
  (styleKeys fonts fam).flatMap
    (fun sty => (weightKeys fonts fam sty).map (fun w => (sty, w)))

/-- The stylesheet bytes accumulated for one family: the concatenation
of the rendered blocks in processing order. -/
def familyCSS (pre : String) (fonts : List Font) (fam : String) : String :=
  String.join ((blockKeys fonts fam).map (fun p => (processFSW pre fam p.1 p.2 fonts).2))

/-- The route list accumulated for one family, in processing order. -/
def familyRoutes (pre : String) (fonts : List Font) (fam : String) : List Route :=
  (blockKeys fonts fam).flatMap (fun p => (processFSW pre fam p.1 p.2 fonts).1)

/-- The per-family outputs of `BuildRoutes` when the `families` map
enumerates its keys as `ks` (Go map iteration order is arbitrary; the
code sorts the collected keys before iterating). -/
def familyOutputsOf (pre : String) (fonts : List Font) (ks : List String) :
    List (String × String × List Route) :=
  (stringsSort ks).map (fun fam => (fam, familyCSS pre fonts fam, familyRoutes pre fonts fam))

/-- The per-family outputs of `BuildRoutes`. -/
def familyOutputs (pre : String) (fonts : List Font) :
    List (String × String × List Route) :=
  familyOutputsOf pre fonts (familyKeyList fonts)

/-- The sink loop of `BuildRoutes`: call the handler once per family in
order, stopping at the first error.  The second component instruments
the run with the list of families the handler was actually invoked on. -/
def sinkRun {ε : Type} (h : String → String → List Route → Except ε Unit) :
    List (String × String × List Route) → Except ε Unit × List String
  | [] => (Except.ok (), [])
  | (fam, css, rts) :: rest =>
    match h fam css rts with
    | Except.error e => (Except.error e, [fam])
    | Except.ok _ =>
      let r := sinkRun h rest
      (r.1, fam :: r.2)

/-- `BuildRoutes` of `route.go`: group the fonts, process families in
sorted order, and feed each family's stylesheet and routes to the
handler, propagating its first error. -/
def BuildRoutes {ε : Type} (pre : String) (fonts : List Font)
    (h : String → String → List Route → Except ε Unit) : Except ε Unit :=
  (sinkRun h (familyOutputs pre fonts)).1

/-! Specification-side characterizations, written from the spec's words
for comparison with the embedded code. -/

/-- Worker for `dedupByFormat`, carrying the set of formats already
seen. -/
def dedupByFormatGo (seen : List String) : List Font → List Font
  | [] => []
  | f :: fs =>
    if f.Format ∈ seen then dedupByFormatGo seen fs
    else f :: dedupByFormatGo (f.Format :: seen) fs

/-- Modelled from the spec: the surviving records of a group after
format deduplication — the first record of each format, in iteration
order. -/
def dedupByFormat (g : List Font) : List Font :=
  dedupByFormatGo [] g

/-- Modelled from the spec: the first non-empty string of a list, or
empty if there is none. -/
def firstNonEmpty (l : List String) : String :=
  (l.find? (fun s => s != "")).getD ""

/-- The route produced for a surviving record: the hash-derived
identifier as path, the original source URL as url. -/
def routeOf (f : Font) : Route :=
  ⟨routeHash f.Src ++ "." ++ f.Format, f.Src⟩

/-- The path-map entry stored for a surviving record: its format mapped
to the prefixed route identifier. -/
def pathEntryOf (pre : String) (f : Font) : String × String :=
  (f.Format, pre ++ (routeHash f.Src ++ "." ++ f.Format))

/-- Strict version of the Go string order. -/
def strLt (a b : String) : Prop :=
  strLe a b ∧ a ≠ b

/-- Lexicographic strict order on (style, weight) pairs: the order in
which `BuildRoutes` visits the blocks of one family. -/
def pairLt (a b : String × String) : Prop :=
  strLt a.1 b.1 ∨ (a.1 = b.1 ∧ strLt a.2 b.2)

/-- Application of a sink to one per-family output triple. -/
def sinkApply {ε : Type} (h : String → String → List Route → Except ε Unit)
    (o : String × String × List Route) : Except ε Unit :=
  h o.1 o.2.1 o.2.2

/-- Sample record: family A, weight 400, woff2. -/
def fontA400 : Font :=
  { emptyFont with
      Family := "A"
      Style := "normal"
      Weight := "400"
      Src := "https://x/y/f.woff2"
      Format := "woff2" }

/-- Sample record: family A, weight 700, woff2. -/
def fontA700 : Font :=
  { emptyFont with
      Family := "A"
      Style := "normal"
      Weight := "700"
      Src := "https://x/y/g.woff2"
      Format := "woff2" }

/-- Sample record: format woff2, empty display. -/
def fontD1 : Font :=
  { emptyFont with
      Family := "A"
      Style := "normal"
      Weight := "400"
      Src := "u1"
      Format := "woff2" }

/-- Sample record: format woff2 (duplicate), non-empty display. -/
def fontD2 : Font :=
  { emptyFont with
      Family := "A"
      Style := "normal"
      Weight := "400"
      Src := "u2"
      Format := "woff2"
      Display := "swap" }

/-- Sample record in family B. -/
def fontB400 : Font :=
  { emptyFont with
      Family := "B"
      Style := "normal"
      Weight := "400"
      Src := "https://x/y/b.woff2"
      Format := "woff2" }

/-- Sample record in family C. -/
def fontC400 : Font :=
  { emptyFont with
      Family := "C"
      Style := "normal"
      Weight := "400"
      Src := "https://x/y/c.woff2"
      Format := "woff2" }

/-- Sample sink that fails on family B and succeeds elsewhere. -/
def sinkFailB : String → String → List Route → Except String Unit :=
  fun fam _ _ => if fam == "B" then Except.error "boom" else Except.ok ()

/-! ## Order instances for the Go string comparison -/

theorem charsLe_total : ∀ x y : List Char, charsLe x y = true ∨ charsLe y x = true
  | [], _ => Or.inl rfl
  | _ :: _, [] => Or.inr rfl
  | x :: xs, y :: ys => by
    rcases lt_trichotomy x y with h | h | h
    · exact Or.inl (by simp [charsLe, h])
    · subst h
      rcases charsLe_total xs ys with ih | ih
      · exact Or.inl (by simp [charsLe, lt_irrefl, ih])
      · exact Or.inr (by simp [charsLe, lt_irrefl, ih])
    · exact Or.inr (by simp [charsLe, h])

theorem charsLe_trans : ∀ x y z : List Char,
    charsLe x y = true → charsLe y z = true → charsLe x z = true
  | [], _, _, _, _ => rfl
  | _ :: _, [], _, h1, _ => by simp [charsLe] at h1
  | _ :: _, _ :: _, [], _, h2 => by simp [charsLe] at h2
  | x :: xs, y :: ys, z :: zs, h1, h2 => by
    simp only [charsLe] at h1 h2 ⊢
    by_cases hxy : x < y
    · by_cases hyz : y < z
      · simp [lt_trans hxy hyz]
      · by_cases hzy : z < y
        · rw [if_neg hyz, if_pos hzy] at h2
          exact absurd h2 (by simp)
        · have hyz' : y = z := le_antisymm (not_lt.mp hzy) (not_lt.mp hyz)
          subst hyz'
          simp [hxy]
    · by_cases hyx : y < x
      · rw [if_neg hxy, if_pos hyx] at h1
        exact absurd h1 (by simp)
      · have hxy' : x = y := le_antisymm (not_lt.mp hyx) (not_lt.mp hxy)
        subst hxy'
        rw [if_neg (lt_irrefl x), if_neg (lt_irrefl x)] at h1
        by_cases hxz : x < z
        · simp [hxz]
        · rw [if_neg hxz] at h2 ⊢
          by_cases hzx : z < x
          · rw [if_pos hzx] at h2
            exact absurd h2 (by simp)
          · rw [if_neg hzx] at h2 ⊢
            exact charsLe_trans xs ys zs h1 h2

theorem charsLe_antisymm : ∀ x y : List Char,
    charsLe x y = true → charsLe y x = true → x = y
  | [], [], _, _ => rfl
  | [], _ :: _, _, h2 => by simp [charsLe] at h2
  | _ :: _, [], h1, _ => by simp [charsLe] at h1
  | x :: xs, y :: ys, h1, h2 => by
    simp only [charsLe] at h1 h2
    by_cases hxy : x < y
    · rw [if_neg (asymm hxy), if_pos hxy] at h2
      exact absurd h2 (by simp)
    · by_cases hyx : y < x
      · rw [if_neg hxy, if_pos hyx] at h1
        exact absurd h1 (by simp)
      · have hxy' : x = y := le_antisymm (not_lt.mp hyx) (not_lt.mp hxy)
        subst hxy'
        rw [if_neg (lt_irrefl x), if_neg (lt_irrefl x)] at h1 h2
        exact congrArg (x :: ·) (charsLe_antisymm xs ys h1 h2)

instance : IsTotal String strLe :=
  ⟨fun a b => charsLe_total a.data b.data⟩

instance : IsTrans String strLe :=
  ⟨fun a b c => charsLe_trans a.data b.data c.data⟩

instance : IsAntisymm String strLe := by
  refine ⟨fun a b h1 h2 => ?_⟩
  cases a with
  | mk da => cases b with
    | mk db => exact congrArg String.mk (charsLe_antisymm da db h1 h2)

instance : IsRefl String strLe := by
  refine ⟨fun a => ?_⟩
  rcases charsLe_total a.data a.data with h | h <;> exact h

/-! ## Characterization of the `process` font loop -/

theorem lookup_append_isSome (l1 l2 : List (String × String)) (k : String) :
    ((l1 ++ l2).lookup k).isSome = ((l1.lookup k).isSome || (l2.lookup k).isSome) := by
  induction l1 with
  | nil => simp [List.lookup]
  | cons p rest ih =>
    cases p with
    | mk a b =>
      cases h : (k == a) with
      | true => simp [List.lookup, h]
      | false => simp [List.lookup, h, ih]

theorem processGroup_fold (pre : String) : ∀ (g : List Font) (acc : GroupAcc) (seen : List String),
    (∀ fmt, ((acc.paths.lookup fmt).isSome = true) ↔ fmt ∈ seen) →
    (g.foldl (processStep pre) acc).routes
        = acc.routes ++ (dedupByFormatGo seen g).map routeOf
      ∧ (g.foldl (processStep pre) acc).paths
        = acc.paths ++ (dedupByFormatGo seen g).map (pathEntryOf pre)
      ∧ (g.foldl (processStep pre) acc).display
        = (if acc.display = "" then
            firstNonEmpty ((dedupByFormatGo seen g).map (fun f => f.Display))
          else acc.display)
      ∧ (g.foldl (processStep pre) acc).stretch
        = (if acc.stretch = "" then
            firstNonEmpty ((dedupByFormatGo seen g).map (fun f => f.Stretch))
          else acc.stretch) := by
  intro g
  induction g with
  | nil =>
    intro acc seen hseen
    refine ⟨by simp [dedupByFormatGo], by simp [dedupByFormatGo], ?_, ?_⟩
    · by_cases h : acc.display = "" <;> simp [dedupByFormatGo, firstNonEmpty, h]
    · by_cases h : acc.stretch = "" <;> simp [dedupByFormatGo, firstNonEmpty, h]
  | cons f fs ih =>
    intro acc seen hseen
    by_cases hmem : f.Format ∈ seen
    · have hlook : (acc.paths.lookup f.Format).isSome = true := (hseen f.Format).mpr hmem
      have hstep : processStep pre acc f = acc := by
        simp [processStep, hlook]
      rw [List.foldl_cons, hstep]
      have hd : dedupByFormatGo seen (f :: fs) = dedupByFormatGo seen fs := by
        simp [dedupByFormatGo, hmem]
      rw [hd]
      exact ih acc seen hseen
    · have hlook : (acc.paths.lookup f.Format).isSome = false := by
        cases h2 : (acc.paths.lookup f.Format).isSome with
        | true => exact absurd ((hseen f.Format).mp h2) hmem
        | false => rfl
      have hstep : processStep pre acc f =
          { paths := acc.paths ++ [pathEntryOf pre f]
            routes := acc.routes ++ [routeOf f]
            display := if f.Display != "" && acc.display == "" then f.Display else acc.display
            stretch := if f.Stretch != "" && acc.stretch == "" then f.Stretch else acc.stretch } := by
        simp [processStep, hlook, pathEntryOf, routeOf]
      have hseen2 : ∀ fmt,
          (((processStep pre acc f).paths.lookup fmt).isSome = true) ↔
            fmt ∈ f.Format :: seen := by
        intro fmt
        rw [hstep]
        simp only [lookup_append_isSome, pathEntryOf]
        by_cases h3 : fmt = f.Format
        · simp [List.lookup, h3]
        · have hb : (fmt == f.Format) = false := by
            simp [h3]
          simp [List.lookup, hb, hseen fmt, h3]
      have hd : dedupByFormatGo seen (f :: fs) =
          f :: dedupByFormatGo (f.Format :: seen) fs := by
        simp [dedupByFormatGo, hmem]
      have ih2 := ih (processStep pre acc f) (f.Format :: seen) hseen2
      rw [List.foldl_cons] at *
      refine ⟨?_, ?_, ?_, ?_⟩
      · rw [ih2.1, hstep, hd]
        simp
      · rw [ih2.2.1, hstep, hd]
        simp [pathEntryOf]
      · rw [ih2.2.2.1, hstep, hd]
        by_cases hfD : f.Display = ""
        · have hb : (f.Display != "") = false := by simp [hfD]
          by_cases haD : acc.display = "" <;>
            simp [hb, hfD, haD, firstNonEmpty, List.find?]
        · have hb : (f.Display != "") = true := by simp [hfD]
          by_cases haD : acc.display = "" <;>
            simp [hb, hfD, haD, firstNonEmpty, List.find?]
      · rw [ih2.2.2.2, hstep, hd]
        by_cases hfS : f.Stretch = ""
        · have hb : (f.Stretch != "") = false := by simp [hfS]
          by_cases haS : acc.stretch = "" <;>
            simp [hb, hfS, haS, firstNonEmpty, List.find?]
        · have hb : (f.Stretch != "") = true := by simp [hfS]
          by_cases haS : acc.stretch = "" <;>
            simp [hb, hfS, haS, firstNonEmpty, List.find?]

/-! ## Claim theorems -/

/-- C2: on an `@font-face` rule with a property outside the allow-list
(here `foo`), the parse loop of `font.go` hits the explicit `panic` call
in the `default` branch of the property switch; the
`return nil, fmt.Errorf("unknown @font-face property %q", ...)` right
after it is unreachable, so the parse crashes instead of returning the
error. -/
theorem C2_unknown_property_panics :
    fontsFromRules [] [⟨true, [⟨"foo", "bar"⟩]⟩] =
      PResult.panicked (PanicKind.unknownFontFaceProperty "foo") := by
  decide

set_option maxRecDepth 4000 in
/-- C1, counterexample: with prefix `p/`, the recorded `Route` for a
surviving record has `Path` equal to the bare route identifier
(hash + `.` + format), not `prefix + routeIdentifier` as the claim
states. -/
theorem C1_counterexample :
    (processGroup "p/" [fontA400]).routes =
      [⟨routeHash "https://x/y/f.woff2" ++ ".woff2", "https://x/y/f.woff2"⟩] ∧
    routeHash "https://x/y/f.woff2" ++ ".woff2" ≠
      "p/" ++ (routeHash "https://x/y/f.woff2" ++ ".woff2") := by
  decide

/-- C3, counterexample: with subset markers `latin`, `latin-ext` and a
rule list whose first rule is not an `@font-face` rule, the first (and
only) `@font-face` record receives the marker at its overall rule index
1, namely `latin-ext`, not the first marker `latin` as the claim
states. -/
theorem C3_counterexample :
    fontsFromRules ["latin", "latin-ext"] [⟨false, []⟩, ⟨true, []⟩] =
      PResult.ok [{ emptyFont with Subset := "latin-ext" }] ∧
    ("latin-ext" : String) ≠ "latin" := by
  decide

/-- C4, counterexample: for a `src` whose URL path has no file extension
and which carries no `format(...)` token, `parseSrcAndFormat` returns
success with an empty format instead of the error the claim states. -/
theorem C4_counterexample :
    srcFindAll "url(https://x/y/font)" = [("https://x/y/font", "")] ∧
    pathExt (pathBase "/y/font") = "" ∧
    parseSrcAndFormat "url(https://x/y/font)" = Except.ok ("https://x/y/font", "") := by
  decide

/-- C6, counterexample: two records of the same group share format
`woff2`; the second one carries the group's only non-empty `display`
value but is skipped by the format dedup check, so the group's display
default stays empty rather than taking the first non-empty value
encountered across the group, as the claim states. -/
theorem C6_counterexample :
    (processGroup "" [fontD1, fontD2]).display = "" ∧
    firstNonEmpty ([fontD1, fontD2].map (fun f => f.Display)) = "swap" ∧
    ("" : String) ≠ "swap" := by
  decide

/-- C1 (amended): for every surviving (format-deduplicated) record of a
group, the route identifier is the first 7 hex characters of the MD5
digest of the record's `src`, concatenated with `.` and the format; the
recorded `Route` pair is (routeIdentifier, originalURL) — without the
prefix — while `prefix + routeIdentifier` is what is stored in the
format-to-path map used to render the stylesheet. -/
theorem C1_route_identifier (pre : String) (g : List Font) :
    (processGroup pre g).routes =
      (dedupByFormat g).map
        (fun f => ⟨(md5hex f.Src).take 7 ++ "." ++ f.Format, f.Src⟩) ∧
    (processGroup pre g).paths =
      (dedupByFormat g).map
        (fun f => (f.Format, pre ++ ((md5hex f.Src).take 7 ++ "." ++ f.Format))) := by
  have h := processGroup_fold pre g ⟨[], [], "", ""⟩ [] (by intro fmt; simp [List.lookup])
  constructor
  · have h1 := h.1
    simp only [processGroup, dedupByFormat]
    rw [h1]
    simp [routeOf, routeHash]
  · have h1 := h.2.1
    simp only [processGroup, dedupByFormat]
    rw [h1]
    simp [pathEntryOf, routeHash]

/-- C6 (amended): in each (family, style, weight) group the first record
of each format survives and later records with the same format are
ignored for routing; the group's `display` and `stretch` defaults are
the first non-empty values among the surviving (format-deduplicated)
records in iteration order — records skipped by the dedup check never
contribute, even if they carry the group's first non-empty value. -/
theorem C6_dedup_by_format (pre : String) (g : List Font) :
    (processGroup pre g).routes.map (fun r => r.URL) =
      (dedupByFormat g).map (fun f => f.Src) ∧
    (processGroup pre g).display =
      firstNonEmpty ((dedupByFormat g).map (fun f => f.Display)) ∧
    (processGroup pre g).stretch =
      firstNonEmpty ((dedupByFormat g).map (fun f => f.Stretch)) := by
  have h := processGroup_fold pre g ⟨[], [], "", ""⟩ [] (by intro fmt; simp [List.lookup])
  refine ⟨?_, ?_, ?_⟩
  · have h1 := h.1
    simp only [processGroup, dedupByFormat]
    rw [h1]
    simp [routeOf, List.map_map, Function.comp]
  · have h1 := h.2.2.1
    simp only [processGroup, dedupByFormat]
    rw [h1]
    simp
  · have h1 := h.2.2.2
    simp only [processGroup, dedupByFormat]
    rw [h1]
    simp

/-- C4 (amended): for a `src` value with exactly one `srcRE` match whose
URL parses, the format is the lowercased file extension of the URL's
path when non-empty, else the captured `format(...)` token; when both
are empty the function still succeeds, returning an empty format rather
than an error. -/
theorem C4_format_resolution (s u f : String) (parts : GoURL)
    (hm : srcFindAll s = [(u, f)]) (hu : urlParse u = some parts) :
    parseSrcAndFormat s =
      Except.ok (u,
        if goToLower (trimDot (pathExt (pathBase parts.path))) = "" then f
        else goToLower (trimDot (pathExt (pathBase parts.path)))) := by
  unfold parseSrcAndFormat
  rw [hm]
  dsimp only
  rw [hu]
  dsimp only
  by_cases h : goToLower (trimDot (pathExt (pathBase parts.path))) = ""
  · simp [h]
  · have hb : (goToLower (trimDot (pathExt (pathBase parts.path))) == "") = false := by
      simp [h]
    simp [h, hb]

/-- Witness for C4: the extensionless, tokenless sample input resolves
to a successful result with an empty format. -/
theorem C4_format_resolution_witness :
    parseSrcAndFormat "url(https://x/y/font)" =
      Except.ok ("https://x/y/font",
        if goToLower (trimDot (pathExt (pathBase (GoURL.mk "/y/font").path))) = "" then ""
        else goToLower (trimDot (pathExt (pathBase (GoURL.mk "/y/font").path)))) :=
  C4_format_resolution "url(https://x/y/font)" "https://x/y/font" "" ⟨"/y/font"⟩
    (by decide) (by decide)

theorem applyStyle_subset (f : Font) (st : GoStyle) (f2 : Font)
    (h : applyStyle f st = PResult.ok f2) : f2.Subset = f.Subset := by
  unfold applyStyle at h
  repeat' split at h
  all_goals first
    | (injection h with h2; subst h2; rfl)
    | injection h

theorem applyStyles_subset : ∀ (sts : List GoStyle) (f f2 : Font),
    applyStyles f sts = PResult.ok f2 → f2.Subset = f.Subset
  | [], f, f2, h => by
    simp [applyStyles] at h
    rw [← h]
  | st :: rest, f, f2, h => by
    unfold applyStyles at h
    cases hst : applyStyle f st with
    | ok fmid =>
      rw [hst] at h
      rw [applyStyles_subset rest fmid f2 h, applyStyle_subset f st fmid hst]
    | err e =>
      rw [hst] at h
      simp at h
    | panicked k =>
      rw [hst] at h
      simp at h

theorem fontsGo_subset (subsets : List String) :
    ∀ (rules : List GoRule) (i : Nat) (fs : List Font),
      (∀ r ∈ rules, r.isFontFace = true) →
      fontsGo subsets i rules = PResult.ok fs →
      fs.length = rules.length ∧
      ∀ j, j < fs.length →
        (fs.getD j emptyFont).Subset =
          (if i + j < subsets.length then subsets.getD (i + j) "" else "")
  | [], i, fs, _, h => by
    simp [fontsGo] at h
    subst h
    exact ⟨rfl, fun j hj => absurd hj (by simp)⟩
  | r :: rs, i, fs, hall, h => by
    have hr : r.isFontFace = true := hall r (List.mem_cons_self r rs)
    unfold fontsGo at h
    rw [hr] at h
    simp only [if_true] at h
    cases happ : applyStyles
        { emptyFont with Subset := if i < subsets.length then subsets.getD i "" else "" }
        r.styles with
    | ok font =>
      rw [happ] at h
      cases hrec : fontsGo subsets (i + 1) rs with
      | ok fs2 =>
        rw [hrec] at h
        simp only [PResult.ok.injEq] at h
        have ih := fontsGo_subset subsets rs (i + 1) fs2
          (fun r2 hr2 => hall r2 (List.mem_cons_of_mem r hr2)) hrec
        rw [← h]
        refine ⟨by simp [ih.1], ?_⟩
        intro j hj
        cases j with
        | zero =>
          have hsub := applyStyles_subset r.styles _ font happ
          simpa using hsub
        | succ j2 =>
          have hj2 : j2 < fs2.length := by
            simp at hj
            omega
          have := ih.2 j2 hj2
          simp only [List.getD_cons_succ]
          rw [this]
          have harith : i + 1 + j2 = i + (j2 + 1) := by omega
          rw [harith]
      | err e => rw [hrec] at h; simp at h
      | panicked k => rw [hrec] at h; simp at h
    | err e => rw [happ] at h; simp at h
    | panicked k => rw [happ] at h; simp at h

/-- C3 (amended): the subset marker index used for a record is the
rule's overall index in the parsed rule list, so the Nth marker aligns
with the Nth `@font-face` rule exactly when every parsed rule is an
`@font-face` rule; in that case record N gets marker N and records at
index at or beyond the number of markers get no subset.  When other
rules precede an `@font-face` rule the alignment shifts (see the
counterexample). -/
theorem C3_subset_positional (subsets : List String) (rules : List GoRule) (fs : List Font)
    (hall : ∀ r ∈ rules, r.isFontFace = true)
    (hok : fontsFromRules subsets rules = PResult.ok fs) :
    fs.length = rules.length ∧
    ∀ j, j < fs.length →
      (fs.getD j emptyFont).Subset =
        (if j < subsets.length then subsets.getD j "" else "") := by
  have h := fontsGo_subset subsets rules 0 fs hall hok
  refine ⟨h.1, ?_⟩
  intro j hj
  have h2 := h.2 j hj
  simpa using h2

/-- Witness for C3: with two markers and two `@font-face` rules the
second record carries the second marker. -/
theorem C3_subset_positional_witness :
    (([{ emptyFont with Subset := "latin" },
       { emptyFont with Subset := "latin-ext" }] : List Font).getD 1 emptyFont).Subset =
      (if 1 < (["latin", "latin-ext"] : List String).length then
        (["latin", "latin-ext"] : List String).getD 1 "" else "") :=
  (C3_subset_positional ["latin", "latin-ext"] [⟨true, []⟩, ⟨true, []⟩]
    [{ emptyFont with Subset := "latin" }, { emptyFont with Subset := "latin-ext" }]
    (by decide) (by decide)).2 1 (by decide)

theorem applyStyle_no_slice (f : Font) (st : GoStyle)
    (hv : st.Property = "font-family" → 2 ≤ (utf8Bytes st.Value).length) :
    applyStyle f st ≠ PResult.panicked PanicKind.sliceBounds := by
  intro hcon
  unfold applyStyle at hcon
  by_cases hp : st.Property = "font-family"
  · have hlen := hv hp
    rw [if_pos (by simp [hp])] at hcon
    rw [if_neg (by omega)] at hcon
    exact PResult.noConfusion hcon
  · rw [if_neg (by simp [hp])] at hcon
    repeat' split at hcon
    all_goals simp at hcon

theorem applyStyles_no_slice : ∀ (sts : List GoStyle) (f : Font),
    (∀ st ∈ sts, st.Property = "font-family" → 2 ≤ (utf8Bytes st.Value).length) →
    applyStyles f sts ≠ PResult.panicked PanicKind.sliceBounds
  | [], _, _ => by simp [applyStyles]
  | st :: rest, f, hv => by
    intro hcon
    unfold applyStyles at hcon
    cases hst : applyStyle f st with
    | ok f2 =>
      rw [hst] at hcon
      exact applyStyles_no_slice rest f2
        (fun s hs => hv s (List.mem_cons_of_mem st hs)) hcon
    | err e =>
      rw [hst] at hcon
      simp at hcon
    | panicked k =>
      rw [hst] at hcon
      simp at hcon
      exact applyStyle_no_slice f st (hv st (List.mem_cons_self st rest))
        (by rw [hst, hcon])

theorem fontsGo_no_slice (subsets : List String) :
    ∀ (rules : List GoRule) (i : Nat),
      (∀ r ∈ rules, ∀ st ∈ r.styles,
        st.Property = "font-family" → 2 ≤ (utf8Bytes st.Value).length) →
      fontsGo subsets i rules ≠ PResult.panicked PanicKind.sliceBounds
  | [], _, _ => by simp [fontsGo]
  | r :: rs, i, hall => by
    intro hcon
    unfold fontsGo at hcon
    cases hr : r.isFontFace with
    | false =>
      rw [hr] at hcon
      simp only [Bool.false_eq_true, if_false] at hcon
      exact fontsGo_no_slice subsets rs (i + 1)
        (fun r2 h2 => hall r2 (List.mem_cons_of_mem r h2)) hcon
    | true =>
      rw [hr] at hcon
      simp only [if_true] at hcon
      cases happ : applyStyles
          { emptyFont with Subset := if i < subsets.length then subsets.getD i "" else "" }
          r.styles with
      | ok font =>
        rw [happ] at hcon
        cases hrec : fontsGo subsets (i + 1) rs with
        | ok fs => rw [hrec] at hcon; simp at hcon
        | err e => rw [hrec] at hcon; simp at hcon
        | panicked k =>
          rw [hrec] at hcon
          simp at hcon
          exact fontsGo_no_slice subsets rs (i + 1)
            (fun r2 h2 => hall r2 (List.mem_cons_of_mem r h2)) (by rw [hrec, hcon])
      | err e =>
        rw [happ] at hcon
        simp at hcon
      | panicked k =>
        rw [happ] at hcon
        simp at hcon
        exact applyStyles_no_slice r.styles _
          (fun st hst => hall r (List.mem_cons_self r rs) st hst) (by rw [happ, hcon])

/-- C10: the font-family unquoting removes the first and last byte of
the value unconditionally (`v[1 : len(v)-1]` on the Go byte string), so
a font-family value shorter than 2 bytes makes the slice out of bounds
and the parse panics (second conjunct, at value `"x"`); parsing is total
in this respect exactly under the precondition that every font-family
value is at least 2 bytes long (first conjunct). -/
theorem C10_family_unquote_totality :
    (∀ (subsets : List String) (rules : List GoRule),
      (∀ r ∈ rules, ∀ st ∈ r.styles,
        st.Property = "font-family" → 2 ≤ (utf8Bytes st.Value).length) →
      fontsFromRules subsets rules ≠ PResult.panicked PanicKind.sliceBounds) ∧
    fontsFromRules [] [⟨true, [⟨"font-family", "x"⟩]⟩] =
      PResult.panicked PanicKind.sliceBounds := by
  constructor
  · intro subsets rules hall
    exact fontsGo_no_slice subsets rules 0 hall
  · decide

/-- Witness for C10: a rule whose font-family value is a quoted
two-byte-or-longer string parses without the slice-bounds panic. -/
theorem C10_family_unquote_totality_witness :
    fontsFromRules [] [⟨true, [⟨"font-family", "'A'"⟩]⟩] ≠
      PResult.panicked PanicKind.sliceBounds :=
  C10_family_unquote_totality.1 [] [⟨true, [⟨"font-family", "'A'"⟩]⟩] (by decide)

/-- C7: the `src` declaration of a rendered block is the optional
legacy `eot` part — the bare path followed by the `?#iefix` fallback —
followed by a comma-separated list that starts with `local('')` and
contains one `url(...) format(...)` entry per format present in the
map, in exactly the fixed order woff2, woff, ttf, svg, with absent
formats omitted. -/
theorem C7_src_declaration (indent : String) (m : List (String × String)) :
    srcFunc indent m =
      (match m.lookup "eot" with
       | some path =>
         "url('" ++ path ++ "');\n" ++ indent ++ "src: url('" ++ path ++
           "?#iefix') format('embedded-opentype'), "
       | none => "") ++
      String.intercalate ", "
        ("local('')" ::
          (["woff2", "woff", "ttf", "svg"].filterMap
            (fun s => (m.lookup s).map
              (fun path => "url('" ++ path ++ "') format('" ++ s ++ "')")))) := by
  unfold srcFunc
  cases he : m.lookup "eot" <;>
    cases h1 : m.lookup "woff2" <;> cases h2 : m.lookup "woff" <;>
    cases h3 : m.lookup "ttf" <;> cases h4 : m.lookup "svg" <;>
    simp [srcEntry, he, h1, h2, h3, h4]

theorem sinkRun_error {ε : Type} (h : String → String → List Route → Except ε Unit) :
    ∀ (l : List (String × String × List Route)) (i : Nat) (e : ε),
      i < l.length →
      (∀ j, j < i → sinkApply h (l.getD j ("", "", [])) = Except.ok ()) →
      sinkApply h (l.getD i ("", "", [])) = Except.error e →
      sinkRun h l = (Except.error e, (l.take (i + 1)).map (fun o => o.1))
  | [], i, e, hlt, _, _ => absurd hlt (by simp)
  | o :: rest, 0, e, _, _, herr => by
    obtain ⟨fam, css, rts⟩ := o
    have hfam : h fam css rts = Except.error e := by
      simpa [sinkApply] using herr
    unfold sinkRun
    rw [hfam]
    simp
  | o :: rest, i + 1, e, hlt, hok, herr => by
    obtain ⟨fam, css, rts⟩ := o
    have h0 : h fam css rts = Except.ok () := by
      simpa [sinkApply] using hok 0 (Nat.succ_pos i)
    have ih := sinkRun_error h rest i e (by simpa using hlt)
      (fun j hj => by simpa using hok (j + 1) (by omega))
      (by simpa using herr)
    unfold sinkRun
    rw [h0, ih]
    simp [List.take_succ_cons]

/-- C8: if the sink succeeds on the first `i` families and returns an
error on family `i`, `BuildRoutes` returns exactly that error, and the
sink is invoked precisely on the first `i + 1` families in processing
order — never on any subsequent family. -/
theorem C8_sink_abort {ε : Type} (h : String → String → List Route → Except ε Unit)
    (pre : String) (fonts : List Font) (i : Nat) (e : ε)
    (hlt : i < (familyOutputs pre fonts).length)
    (hok : ∀ j, j < i →
      sinkApply h ((familyOutputs pre fonts).getD j ("", "", [])) = Except.ok ())
    (herr : sinkApply h ((familyOutputs pre fonts).getD i ("", "", [])) = Except.error e) :
    BuildRoutes pre fonts h = Except.error e ∧
    (sinkRun h (familyOutputs pre fonts)).2 =
      ((familyOutputs pre fonts).take (i + 1)).map (fun o => o.1) := by
  have hres := sinkRun_error h (familyOutputs pre fonts) i e hlt hok herr
  exact ⟨by simp [BuildRoutes, hres], by simp [hres]⟩

/-- Witness for C8: a sink failing on family B (the second of three
families) makes BuildRoutes return that error, with the sink invoked
only on families A and B. -/
theorem C8_sink_abort_witness :
    BuildRoutes "p/" [fontA400, fontB400, fontC400] sinkFailB = Except.error "boom" ∧
    (sinkRun sinkFailB (familyOutputs "p/" [fontA400, fontB400, fontC400])).2 =
      ((familyOutputs "p/" [fontA400, fontB400, fontC400]).take 2).map (fun o => o.1) :=
  C8_sink_abort sinkFailB "p/" [fontA400, fontB400, fontC400] 1 "boom"
    (by decide) (by decide) (by decide)

theorem sorted_stringsSort (l : List String) : List.Sorted strLe (stringsSort l) :=
  List.sorted_insertionSort strLe l

theorem nodup_stringsSort (l : List String) (h : l.Nodup) : (stringsSort l).Nodup :=
  ((List.perm_insertionSort strLe l).nodup_iff).mpr h

theorem sorted_strLt_stringsSort (l : List String) (h : l.Nodup) :
    List.Pairwise strLt (stringsSort l) :=
  ((sorted_stringsSort l).and (nodup_stringsSort l h)).imp (fun hab => ⟨hab.1, hab.2⟩)

theorem pairwise_pairs (ws : String → List String) :
    ∀ (styles : List String), List.Pairwise strLt styles →
      (∀ s, List.Pairwise strLt (ws s)) →
      List.Pairwise pairLt
        (styles.flatMap (fun sty => (ws sty).map (fun w => (sty, w))))
  | [], _, _ => by simp
  | s :: rest, hs, hw => by
    simp only [List.flatMap_cons]
    refine List.pairwise_append.mpr ⟨?_, ?_, ?_⟩
    · exact (hw s).map _ (fun a b hab => Or.inr ⟨rfl, hab⟩)
    · exact pairwise_pairs ws rest hs.of_cons hw
    · intro a ha b hb
      obtain ⟨w, _, rfl⟩ := List.mem_map.mp ha
      obtain ⟨t, ht, hb2⟩ := List.mem_flatMap.mp hb
      obtain ⟨w2, _, rfl⟩ := List.mem_map.mp hb2
      exact Or.inl (List.rel_of_pairwise_cons hs ht)

theorem pairwise_blockKeys (fonts : List Font) (fam : String) :
    List.Pairwise pairLt (blockKeys fonts fam) := by
  unfold blockKeys
  exact pairwise_pairs _ (styleKeys fonts fam)
    (sorted_strLt_stringsSort _ (List.nodup_dedup _))
    (fun s => sorted_strLt_stringsSort _ (List.nodup_dedup _))

/-- C5: `BuildRoutes` emits families in ascending Go string order of
family name (the per-family outputs are keyed by the sorted family
keys), and within a family the (style, weight) blocks appear in strictly
ascending lexicographic order — styles ascending, weights in ascending
string (not numeric) order within a style — regardless of input order;
in particular a family supplied with weights 700 then 400 has its
weight keys sorted to [400, 700] and emits the 400 block first. -/
theorem C5_sorted_processing :
    (∀ (pre : String) (fonts : List Font) (fam : String),
      (familyOutputs pre fonts).map (fun o => o.1) = familyKeys fonts ∧
      List.Sorted strLe (familyKeys fonts) ∧
      List.Pairwise pairLt (blockKeys fonts fam)) ∧
    weightKeys [fontA700, fontA400] "A" "normal" = ["400", "700"] ∧
    blockKeys [fontA700, fontA400] "A" = [("normal", "400"), ("normal", "700")] := by
  refine ⟨?_, by decide, by decide⟩
  intro pre fonts fam
  refine ⟨?_, sorted_stringsSort _, pairwise_blockKeys fonts fam⟩
  simp only [familyOutputs, familyOutputsOf, familyKeys, List.map_map]
  exact List.map_id _ ▸ rfl

theorem stringsSort_perm_eq (l1 l2 : List String) (hp : l1.Perm l2) :
    stringsSort l1 = stringsSort l2 :=
  List.eq_of_perm_of_sorted
    ((List.perm_insertionSort strLe l1).trans
      (hp.trans (List.perm_insertionSort strLe l2).symm))
    (List.sorted_insertionSort strLe l1) (List.sorted_insertionSort strLe l2)

/-- C9: the output of `BuildRoutes` is independent of the arbitrary Go
map iteration order in which the family keys are collected — any
enumeration of the key set yields bit-for-bit the same per-family
outputs (same family order, same stylesheet string, same routes) as any
other, because the keys are sorted before processing (first conjunct);
and every recorded route path is a pure function of the route's source
URL and its format — the MD5-derived identifier (second conjunct). -/
theorem C9_determinism :
    (∀ (pre : String) (fonts : List Font) (ks : List String),
      ks.Perm (familyKeyList fonts) →
      familyOutputsOf pre fonts ks = familyOutputs pre fonts) ∧
    (∀ (pre : String) (g : List Font) (r : Route),
      r ∈ (processGroup pre g).routes →
      ∃ fmt, r.Path = (md5hex r.URL).take 7 ++ "." ++ fmt) := by
  constructor
  · intro pre fonts ks hperm
    unfold familyOutputs familyOutputsOf
    rw [stringsSort_perm_eq ks (familyKeyList fonts) hperm]
  · intro pre g r hr
    have h := (processGroup_fold pre g ⟨[], [], "", ""⟩ []
      (by intro fmt; simp [List.lookup])).1
    simp only [processGroup] at hr
    rw [h] at hr
    simp only [List.nil_append, List.mem_map] at hr
    obtain ⟨f, _, rfl⟩ := hr
    exact ⟨f.Format, by simp [routeOf, routeHash]⟩

/-- Witness for C9: enumerating the two family keys in reversed order
produces the same outputs as the canonical enumeration. -/
theorem C9_determinism_witness :
    familyOutputsOf "p/" [fontA400, fontB400] ["B", "A"] =
      familyOutputs "p/" [fontA400, fontB400] :=
  C9_determinism.1 "p/" [fontA400, fontB400] ["B", "A"] (by decide)
